import Mathlib

/-!
# Verification of the `meanwhile` process-lifecycle orchestrator

Shallow embedding of `src/main.rs` of the `meanwhile` repository: a tool
that spawns declared background tasks, runs a primary command to completion,
interrupts and kills the background tasks, collects their captured output,
and writes each captured stream to `{outdir}/{name}{suffix}`.

The embedding makes every OS interaction explicit through a `World` oracle
(outcomes of spawn, interrupt, kill, wait, directory creation, the
interactive name prompt, and file writes), and records the observable steps
of a run as a list of `Event`s, so that the spec's temporal and
error-handling claims become statements about the trace, the final
filesystem, and the process outcome.

A crucial operational detail of the source is preserved: in `main.rs` the
`outputs` value (line 141) is a *lazy* `filter_map` iterator over the spawned
children; the kill attempt and `wait_with_output` for each background child
only execute when the final `for` loop (line 175) pulls the next element,
i.e. *after* `fs::create_dir_all` (line 164) and name resolution (line 166),
interleaved with the output writes.  The embedding follows the code's
operational order, not the spec's numbered-step order.
-/

namespace Meanwhile

/-- One entry of the task declaration file (`struct Meanwhile` in `main.rs`):
a background command, its arguments, and optional per-stream suffixes. -/
structure Task where
  cmd : String
  args : List String
  stdout_suffix : Option String
  stderr_suffix : Option String
deriving DecidableEq, Repr

/-- A simplified model of an IEEE double as clap's `f64` value parser accepts
it: NaN, the two infinities, or a finite value (modelled as a rational).
clap's default `f64` parser (`f64::from_str`) accepts all of these, including
negative and non-finite values. -/
inductive F64
  | nan
  | inf
  | negInf
  | finite (q : ℚ)
deriving DecidableEq, Repr

/-- Largest number of whole seconds representable: `Duration` stores seconds
in a `u64`, so `Duration::from_secs_f64` panics once the value reaches
`2^64` seconds. -/
def durationMaxSecs : ℚ := 2 ^ 64

/-- `Duration::from_secs_f64`: returns the duration (here just the rational
seconds value) when the input is finite, non-negative and small enough to
fit a `Duration`; otherwise the Rust function *panics*, modelled as `none`. -/
def durationFromSecsF64 (v : F64) : Option ℚ :=
  match v with
  | .nan => none
  | .inf => none
  | .negInf => none
  | .finite q => if 0 ≤ q ∧ q < durationMaxSecs then some q else none

/-- The parsed CLI surface consumed by the orchestrator (`struct Args` in
`main.rs`), after clap has parsed it: the settling delay, the optional shared
name prefix, the interactive-name flag, the primary task's optional stream
suffixes, the output directory, and the primary command with its arguments
(clap requires at least one token, so the command is separated here). -/
structure Args where
  sleep_after_spawn : F64
  name : Option String
  interactive_name : Bool
  stdout_suffix : Option String
  stderr_suffix : Option String
  outdir : String
  cmd : String
  cmd_args : List String
deriving DecidableEq, Repr

/-- `std::process::Output`: captured stdout bytes, stderr bytes, and exit
status of a finished process. -/
structure Output where
  stdout : List Nat
  stderr : List Nat
  status : Int
deriving DecidableEq, Repr

/-- Outcome of `Child::kill` in `main.rs`: success, failure with
`io::ErrorKind::InvalidInput` (the "child already exited" case), or any
other error. -/
inductive KillOutcome
  | ok
  | invalidInput
  | otherErr
deriving DecidableEq, Repr

/-- Oracle for every OS interaction of a run.  Background tasks are
identified by their position in the declaration list. -/
structure World where
  /-- Does spawning the `i`-th background task succeed? -/
  spawnOk : Nat → Bool
  /-- Does `kill(pid, SIGINT)` for the `i`-th background task succeed?
  (A failure is only logged; the trace records the attempt either way.) -/
  interruptOk : Nat → Bool
  /-- Outcome of `Child::kill` for the `i`-th background task. -/
  killResult : Nat → KillOutcome
  /-- Result of `wait_with_output` for the `i`-th background task
  (`none` models a wait error). -/
  waitResult : Nat → Option Output
  /-- Result of running the primary command to completion via `.output()`
  (`none` models an execution failure). -/
  primaryResult : Option Output
  /-- Does `fs::create_dir_all(outdir)` succeed? -/
  createDirOk : Bool
  /-- The name returned by the interactive prompt (an external collaborator,
  modelled as total). -/
  promptName : String
  /-- Does `fs::write` to the given path succeed? -/
  writeOk : String → Bool

/-- Which process a written stream belongs to. -/
inductive Src
  | primary
  | background (i : Nat)
deriving DecidableEq, Repr

/-- Which captured stream of a process. -/
inductive StreamKind
  | out
  | err
deriving DecidableEq, Repr

/-- Observable steps of a run, in execution order. -/
inductive Event
  | spawned (i : Nat)
  | spawnFailed (i : Nat)
  | sleptSettle
  | ranPrimary
  | primaryExited
  | interrupted (i : Nat)
  | sleptGrace
  | killAttempt (i : Nat)
  | waited (i : Nat)
  | createdDir
  | resolvedName
  | wrote (src : Src) (s : StreamKind) (path : String)
deriving DecidableEq, Repr

/-- How the process ends: a Rust panic (process aborts with the panic exit
code), or a normal exit with the given code (`main` returns
`anyhow::Result`, so `Ok` exits 0 and `Err` exits 1). -/
inductive Outcome
  | panicked
  | exited (code : Nat)
deriving DecidableEq, Repr

/-- The filesystem contents of the output directory tree: an association
list from path to file bytes, newest entry first. -/
abbrev FS := List (String × List Nat)

/-- Write `bytes` at `path`, truncating/creating: any previous entry for the
path is replaced. -/
def fsWrite (fs : FS) (path : String) (bytes : List Nat) : FS :=
  (path, bytes) :: fs.filter (fun e => e.1 ≠ path)

/-- Content of the file at `path`, if present. -/
def fsLookup (fs : FS) (path : String) : Option (List Nat) :=
  (fs.find? (fun e => e.1 = path)).map (·.2)

/-- `PathBuf::join` with a relative file name. -/
def pathJoin (dir file : String) : String := dir ++ "/" ++ file

/-- `fn write_or_log` from `main.rs`: if no suffix is configured, do
nothing; otherwise write the bytes to `outdir/{name}{suffix}`, and on a
write failure only log (the filesystem is unchanged). -/
def write_or_log (maybe_suffix : Option String) (outdir : String)
    (name : String) (output : List Nat) (writeOk : String → Bool)
    (fs : FS) : FS :=
  match maybe_suffix with
  | none => fs
  | some suffix =>
    let file := pathJoin outdir (name ++ suffix)
    if writeOk file then fsWrite fs file output else fs

/-- Trace events emitted by one `write_or_log` call: a write is attempted
exactly when a suffix is configured. -/
def writeEvents (src : Src) (s : StreamKind) (maybe_suffix : Option String)
    (outdir : String) (name : String) : List Event :=
  match maybe_suffix with
  | none => []
  | some suffix => [Event.wrote src s (pathJoin outdir (name ++ suffix))]

/-- A spawned background child as tracked by `main.rs`: the child handle
(identified by its declaration index) paired with the task's suffixes. -/
abbrev Child := Nat × Option String × Option String

/-- The spawn loop (`main.rs` lines 83–107): spawn each declared task in
order with piped stdout/stderr and null stdin; `collect::<Result<Vec<_>>>`
stops at the first failure, which aborts the run. Returns the emitted
events and, on success, the list of children. -/
def spawnAll (w : World) : List Task → Nat → List Event × Option (List Child)
  | [], _ => ([], some [])
  | task :: rest, i =>
    if w.spawnOk i then
      let (evs, r) := spawnAll w rest (i + 1)
      (Event.spawned i :: evs,
        r.map (fun cs => (i, task.stdout_suffix, task.stderr_suffix) :: cs))
    else
      ([Event.spawnFailed i], none)

/-- The interrupt loop (`main.rs` lines 128–136): send SIGINT to every
child; a failure is only logged, so the trace records the attempt either
way. -/
def interruptAll (children : List Child) : List Event :=
  children.map (fun c => Event.interrupted c.1)

/-- `fn wait_or_log` from `main.rs`: wait on the child for its captured
output; on a wait error, log and drop the record (`none`). -/
def wait_or_log (w : World) (i : Nat) (stdout_suffix stderr_suffix : Option String) :
    Option (Output × Option String × Option String) :=
  match w.waitResult i with
  | some output => some (output, stdout_suffix, stderr_suffix)
  | none => none

/-- One step of the lazy `outputs` iterator (`main.rs` lines 141–162) fused
with the body of the write loop (lines 175–181) that consumes it: attempt to
kill the child; on success or on the benign `InvalidInput` ("already
exited") failure, wait for its output and write each stream whose suffix is
present; on any other kill failure, skip the child entirely. -/
def collectChild (w : World) (outdir name : String) (c : Child) (fs : FS) :
    List Event × FS :=
  match w.killResult c.1 with
  | .ok =>
    match wait_or_log w c.1 c.2.1 c.2.2 with
    | some (output, so, se) =>
      let fs1 := write_or_log so outdir name output.stdout w.writeOk fs
      let fs2 := write_or_log se outdir name output.stderr w.writeOk fs1
      ([Event.killAttempt c.1, Event.waited c.1]
        ++ writeEvents (Src.background c.1) StreamKind.out so outdir name
        ++ writeEvents (Src.background c.1) StreamKind.err se outdir name, fs2)
    | none => ([Event.killAttempt c.1, Event.waited c.1], fs)
  | .invalidInput =>
    match wait_or_log w c.1 c.2.1 c.2.2 with
    | some (output, so, se) =>
      let fs1 := write_or_log so outdir name output.stdout w.writeOk fs
      let fs2 := write_or_log se outdir name output.stderr w.writeOk fs1
      ([Event.killAttempt c.1, Event.waited c.1]
        ++ writeEvents (Src.background c.1) StreamKind.out so outdir name
        ++ writeEvents (Src.background c.1) StreamKind.err se outdir name, fs2)
    | none => ([Event.killAttempt c.1, Event.waited c.1], fs)
  | .otherErr => ([Event.killAttempt c.1], fs)

/-- The write loop's background part: consume the lazy `outputs` iterator,
child by child, killing/waiting/writing as each element is pulled. -/
def collectAndWrite (w : World) (outdir name : String) :
    List Child → FS → List Event × FS
  | [], fs => ([], fs)
  | c :: rest, fs =>
    let (evs, fs1) := collectChild w outdir name c fs
    let (evsR, fsR) := collectAndWrite w outdir name rest fs1
    (evs ++ evsR, fsR)

/-- The final run state: the trace of observable steps, how the process
ended, and the files written. -/
structure RunResult where
  trace : List Event
  outcome : Outcome
  fs : FS
deriving DecidableEq, Repr

/-- The whole of `fn main` after CLI/declaration parsing (`main.rs`
lines 83–184), in the code's operational order:

1. spawn every declared background task (any failure aborts, exit 1);
2. convert the settling delay with `Duration::from_secs_f64` (panics on an
   invalid value) and sleep;
3. run the primary command to completion (failure aborts, exit 1);
4. interrupt every child, then sleep the grace delay;
5. build the *lazy* `outputs` iterator (nothing executes yet);
6. `fs::create_dir_all(outdir)` (failure aborts, exit 1);
7. resolve the shared name prefix;
8. write the primary task's streams, then pull the iterator: for each child
   in order, kill / wait / write its streams. -/
def run (args : Args) (tasks : List Task) (w : World) : RunResult :=
  let (spawnEvs, childrenOpt) := spawnAll w tasks 0
  match childrenOpt with
  | none => ⟨spawnEvs, Outcome.exited 1, []⟩
  | some children =>
    match durationFromSecsF64 args.sleep_after_spawn with
    | none => ⟨spawnEvs, Outcome.panicked, []⟩
    | some _ =>
      let evs1 := spawnEvs ++ [Event.sleptSettle, Event.ranPrimary]
      match w.primaryResult with
      | none => ⟨evs1, Outcome.exited 1, []⟩
      | some primaryOut =>
        let evs2 := evs1 ++ [Event.primaryExited]
          ++ interruptAll children ++ [Event.sleptGrace]
        if w.createDirOk then
          let name := if args.interactive_name then w.promptName
                      else args.name.getD ""
          let evs3 := evs2 ++ [Event.createdDir, Event.resolvedName]
          let fs1 := write_or_log args.stdout_suffix args.outdir name
            primaryOut.stdout w.writeOk []
          let fs2 := write_or_log args.stderr_suffix args.outdir name
            primaryOut.stderr w.writeOk fs1
          let pEvs := writeEvents Src.primary StreamKind.out
              args.stdout_suffix args.outdir name
            ++ writeEvents Src.primary StreamKind.err
              args.stderr_suffix args.outdir name
          let (cEvs, fsF) := collectAndWrite w args.outdir name children fs2
          ⟨evs3 ++ pEvs ++ cEvs, Outcome.exited 0, fsF⟩
        else
          ⟨evs2 ++ [Event.createdDir], Outcome.exited 1, []⟩

/-! ## Temporal-ordering predicates over traces -/

/-- `strictlyAfterNone p q l`: no `p`-event occurs at or after any
`q`-event of `l`; when no event satisfies both `p` and `q` this says that
every `p`-event strictly precedes every `q`-event. -/
def strictlyAfterNone (p q : Event → Bool) : List Event → Bool
  | [] => true
  | e :: rest =>
    (!(q e) || (!(p e) && rest.all (fun x => !(p x))))
      && strictlyAfterNone p q rest

/-- `eachPrecededBy q p l`: no `p`-event occurs before or at the first
`q`-event of `l`; i.e. every `p`-event has some `q`-event strictly before
it. -/
def eachPrecededBy (q p : Event → Bool) : List Event → Bool
  | [] => true
  | e :: rest => !(p e) && (if q e then true else eachPrecededBy q p rest)

/-! ## Event classifiers and helper definitions -/

/-- Is the event a file write (of any task, any stream)? -/
def isWrote : Event → Bool
  | .wrote _ _ _ => true
  | _ => false

/-- Is the event a file write on behalf of background task `i`? -/
def isWroteOf (i : Nat) : Event → Bool
  | .wrote (Src.background j) _ _ => j == i
  | _ => false

/-- Is the event a file write of the given task's given stream? -/
def isWroteFor (src : Src) (s : StreamKind) : Event → Bool
  | .wrote src2 s2 _ => src2 == src && s2 == s
  | _ => false

/-- Is the event the kill attempt on background task `i`? -/
def isKillAttempt (i : Nat) : Event → Bool
  | .killAttempt j => j == i
  | _ => false

/-- Is the event the wait-for-exit collection of background task `i`? -/
def isWaited (i : Nat) : Event → Bool
  | .waited j => j == i
  | _ => false

/-- Is the event an interrupt request (to any background task)? -/
def isInterrupted : Event → Bool
  | .interrupted _ => true
  | _ => false

/-- Is the event the exit of the primary task? -/
def isPrimaryExited : Event → Bool
  | .primaryExited => true
  | _ => false

/-- Is the event the start of the primary task? -/
def isRanPrimary : Event → Bool
  | .ranPrimary => true
  | _ => false

/-- Is the event the creation of the output directory? -/
def isCreatedDir : Event → Bool
  | .createdDir => true
  | _ => false

/-- Is the event the resolution of the shared name prefix? -/
def isResolvedName : Event → Bool
  | .resolvedName => true
  | _ => false

/-- Is the event part of the spawn phase? -/
def isSpawnEvent : Event → Bool
  | .spawned _ => true
  | .spawnFailed _ => true
  | _ => false

/-- Is the event a kill attempt, wait, or write concerning background
task `j`? Exactly the events one step of the output iterator can emit. -/
def aboutChild (j : Nat) : Event → Bool
  | .killAttempt k => k == j
  | .waited k => k == j
  | .wrote (Src.background k) _ _ => k == j
  | _ => false

/-- The spawn events when every spawn succeeds. -/
def okSpawnEvents : List Task → Nat → List Event
  | [], _ => []
  | _ :: rest, i => Event.spawned i :: okSpawnEvents rest (i + 1)

/-- The children produced when every spawn succeeds: the `j`-th declared
task becomes the child with index `i + j`, carrying its suffixes. -/
def childrenOf : List Task → Nat → List Child
  | [], _ => []
  | t :: rest, i => (i, t.stdout_suffix, t.stderr_suffix) :: childrenOf rest (i + 1)

/-- The configured suffix of a child for a given stream. -/
def childSuffix (c : Child) : StreamKind → Option String
  | .out => c.2.1
  | .err => c.2.2

/-- The shared name prefix the run resolves (`main.rs` lines 166–173):
the prompt's answer when `--interactive-name` is set, otherwise the
`--name` argument, defaulting to the empty string. -/
def resolvedNameOf (args : Args) (w : World) : String :=
  if args.interactive_name then w.promptName else args.name.getD ""

/-- The filesystem after the primary task's two streams have been written
(the first iteration of the write loop). -/
def primaryFs (args : Args) (w : World) (po : Output) : FS :=
  write_or_log args.stderr_suffix args.outdir (resolvedNameOf args w)
    po.stderr w.writeOk
    (write_or_log args.stdout_suffix args.outdir (resolvedNameOf args w)
      po.stdout w.writeOk [])

/-- Does any declared background task fail to spawn in this world? -/
def anySpawnFails (tasks : List Task) (w : World) : Bool :=
  (List.range tasks.length).any (fun j => !(w.spawnOk j))

/-- The run-fatal conditions named by the spec: a spawn failure for any
background task, a primary-task execution failure, or inability to create
the output directory. -/
def fatalCondition (tasks : List Task) (w : World) : Bool :=
  anySpawnFails tasks w || w.primaryResult.isNone || !(w.createDirOk)

/-- A settling-delay value that `Duration::from_secs_f64` rejects by
panicking: NaN, infinite, negative, or at least `2^64` seconds. -/
def invalidSleepValue : F64 → Prop
  | .nan => True
  | .inf => True
  | .negInf => True
  | .finite q => q < 0 ∨ durationMaxSecs ≤ q

/-- The suffix the primary task configures for a stream. -/
def Args.suffixFor (a : Args) : StreamKind → Option String
  | .out => a.stdout_suffix
  | .err => a.stderr_suffix

/-- The suffix a declared background task configures for a stream. -/
def Task.suffixFor (t : Task) : StreamKind → Option String
  | .out => t.stdout_suffix
  | .err => t.stderr_suffix

/-- A world in which every OS interaction succeeds: the primary task prints
two bytes, background tasks produce no output and exit 0. -/
def okWorld : World :=
  ⟨fun _ => true, fun _ => true, fun _ => KillOutcome.ok,
    fun _ => some ⟨[], [], 0⟩, some ⟨[104, 105], [], 0⟩, true, "",
    fun _ => true⟩

/-- Concrete arguments: settling delay 1s, name prefix "n", primary stdout
saved with suffix ".out". -/
def cexArgs : Args :=
  ⟨F64.finite 1, some "n", false, some ".out", none, ".", "echo", []⟩

/-- One declared background task saving its stdout with suffix ".bg". -/
def cexTasks : List Task := [⟨"sleep", ["5"], some ".bg", none⟩]

/-- `cexArgs` with a NaN settling delay (accepted by clap's f64 parser). -/
def nanArgs : Args :=
  ⟨F64.nan, some "n", false, some ".out", none, ".", "echo", []⟩

/-- `okWorld` except that every spawn fails. -/
def failSpawnWorld : World :=
  ⟨fun _ => false, fun _ => true, fun _ => KillOutcome.ok,
    fun _ => some ⟨[], [], 0⟩, some ⟨[104, 105], [], 0⟩, true, "",
    fun _ => true⟩

/-- `okWorld` except that every forced kill fails with a non-benign error. -/
def otherErrWorld : World :=
  ⟨fun _ => true, fun _ => true, fun _ => KillOutcome.otherErr,
    fun _ => some ⟨[], [], 0⟩, some ⟨[104, 105], [], 0⟩, true, "",
    fun _ => true⟩

/-- `okWorld` except that every forced kill reports the process already
exited (`io::ErrorKind::InvalidInput`). -/
def alreadyExitedWorld : World :=
  ⟨fun _ => true, fun _ => true, fun _ => KillOutcome.invalidInput,
    fun _ => some ⟨[], [], 0⟩, some ⟨[104, 105], [], 0⟩, true, "",
    fun _ => true⟩

/-- `cexArgs` with a negative settling delay (accepted by clap's f64
parser). -/
def negArgs : Args :=
  ⟨F64.finite (-1), some "n", false, some ".out", none, ".", "echo", []⟩

theorem strictlyAfterNone_of_no_p {p q : Event → Bool} {l : List Event}
    (h : l.all (fun x => !(p x)) = true) : strictlyAfterNone p q l = true := by
  induction l with
  | nil => rfl
  | cons e rest ih =>
    rw [List.all_cons, Bool.and_eq_true] at h
    rw [strictlyAfterNone, Bool.and_eq_true]
    exact ⟨by rw [h.1, h.2]; cases q e <;> rfl, ih h.2⟩

theorem strictlyAfterNone_of_no_q {p q : Event → Bool} {l : List Event}
    (h : l.all (fun x => !(q x)) = true) : strictlyAfterNone p q l = true := by
  induction l with
  | nil => rfl
  | cons e rest ih =>
    rw [List.all_cons, Bool.and_eq_true] at h
    rw [strictlyAfterNone, Bool.and_eq_true]
    exact ⟨by rw [h.1]; rfl, ih h.2⟩

theorem strictlyAfterNone_append_left {p q : Event → Bool} {a b : List Event}
    (ha : a.all (fun x => !(q x)) = true)
    (hb : strictlyAfterNone p q b = true) :
    strictlyAfterNone p q (a ++ b) = true := by
  induction a with
  | nil => simpa using hb
  | cons e rest ih =>
    rw [List.all_cons, Bool.and_eq_true] at ha
    rw [List.cons_append, strictlyAfterNone, Bool.and_eq_true]
    exact ⟨by rw [ha.1]; rfl, ih ha.2⟩

theorem strictlyAfterNone_append_right {p q : Event → Bool} {a b : List Event}
    (ha : strictlyAfterNone p q a = true)
    (hb : b.all (fun x => !(p x)) = true) :
    strictlyAfterNone p q (a ++ b) = true := by
  induction a with
  | nil => simpa using strictlyAfterNone_of_no_p hb
  | cons e rest ih =>
    rw [strictlyAfterNone, Bool.and_eq_true] at ha
    rw [List.cons_append, strictlyAfterNone, Bool.and_eq_true]
    refine ⟨?_, ih ha.2⟩
    rcases Bool.or_eq_true_iff.mp ha.1 with h | h
    · rw [h]; rfl
    · rw [Bool.and_eq_true] at h
      rw [h.1]
      have : (rest ++ b).all (fun x => !(p x)) = true := by
        rw [List.all_append, Bool.and_eq_true]; exact ⟨h.2, hb⟩
      rw [this]
      cases q e <;> rfl

theorem strictlyAfterNone_append {p q : Event → Bool} {a b : List Event}
    (ha : a.all (fun x => !(q x)) = true)
    (hb : b.all (fun x => !(p x)) = true) :
    strictlyAfterNone p q (a ++ b) = true :=
  strictlyAfterNone_append_left ha (strictlyAfterNone_of_no_p hb)

theorem eachPrecededBy_of_no_p {q p : Event → Bool} {l : List Event}
    (h : l.all (fun x => !(p x)) = true) : eachPrecededBy q p l = true := by
  induction l with
  | nil => rfl
  | cons e rest ih =>
    rw [List.all_cons, Bool.and_eq_true] at h
    rw [eachPrecededBy, Bool.and_eq_true]
    refine ⟨h.1, ?_⟩
    by_cases hq : q e = true
    · simp [hq]
    · simp [hq, ih h.2]

theorem eachPrecededBy_append_left {q p : Event → Bool} {a b : List Event}
    (ha : a.all (fun x => !(p x) && !(q x)) = true)
    (hb : eachPrecededBy q p b = true) :
    eachPrecededBy q p (a ++ b) = true := by
  induction a with
  | nil => simpa using hb
  | cons e rest ih =>
    rw [List.all_cons, Bool.and_eq_true] at ha
    rw [Bool.and_eq_true] at ha
    rw [List.cons_append, eachPrecededBy, Bool.and_eq_true]
    refine ⟨ha.1.1, ?_⟩
    have hqe : q e = false := by
      have := ha.1.2
      cases hqe : q e
      · rfl
      · rw [hqe] at this; exact absurd this (by decide)
    simp [hqe, ih ha.2]

theorem eachPrecededBy_cons_q {q p : Event → Bool} {e : Event}
    {rest : List Event} (hq : q e = true) (hp : p e = false) :
    eachPrecededBy q p (e :: rest) = true := by
  rw [eachPrecededBy, hp, hq]
  rfl

/-! ## Structural lemmas: spawn phase -/

theorem spawnAll_ok {w : World} {tasks : List Task} {i : Nat}
    (h : ∀ j, j < tasks.length → w.spawnOk (i + j) = true) :
    spawnAll w tasks i = (okSpawnEvents tasks i, some (childrenOf tasks i)) := by
  induction tasks generalizing i with
  | nil => rfl
  | cons t rest ih =>
    have h0 : w.spawnOk i = true := by simpa using h 0 (by simp)
    have hr : ∀ j, j < rest.length → w.spawnOk (i + 1 + j) = true := by
      intro j hj
      have hx := h (j + 1) (by simpa using Nat.succ_lt_succ hj)
      rwa [show i + (j + 1) = i + 1 + j by omega] at hx
    simp [spawnAll, h0, ih hr, okSpawnEvents, childrenOf]

theorem spawnAll_events_spawn {w : World} {tasks : List Task} {i : Nat} :
    ∀ e ∈ (spawnAll w tasks i).1, isSpawnEvent e = true := by
  induction tasks generalizing i with
  | nil => intro e he; simp [spawnAll] at he
  | cons t rest ih =>
    intro e he
    by_cases h0 : w.spawnOk i = true
    · simp only [spawnAll, h0, if_true] at he
      rcases hsp : spawnAll w rest (i + 1) with ⟨evs, r⟩
      rw [hsp] at he
      simp at he
      rcases he with he | he
      · subst he; rfl
      · have := ih (i := i + 1) e
        rw [hsp] at this
        exact this he
    · simp only [spawnAll, eq_false_of_ne_true h0, if_false] at he
      simp at he
      subst he; rfl

theorem spawnAll_snd_none_iff {w : World} {tasks : List Task} {i : Nat} :
    (spawnAll w tasks i).2 = none ↔
      ∃ j, j < tasks.length ∧ w.spawnOk (i + j) = false := by
  induction tasks generalizing i with
  | nil => simp [spawnAll]
  | cons t rest ih =>
    by_cases h0 : w.spawnOk i = true
    · rcases hsp : spawnAll w rest (i + 1) with ⟨evs, r⟩
      have hiff := ih (i := i + 1)
      rw [hsp] at hiff
      simp only [spawnAll, h0, if_true, hsp]
      constructor
      · intro hnone
        simp at hnone
        rcases hiff.mp hnone with ⟨j, hj, hf⟩
        exact ⟨j + 1, by simpa using Nat.succ_lt_succ hj,
          by rwa [show i + (j + 1) = i + 1 + j by omega]⟩
      · rintro ⟨j, hj, hf⟩
        match j with
        | 0 => rw [Nat.add_zero] at hf; rw [hf] at h0; exact absurd h0 (by decide)
        | Nat.succ k =>
          have hk : k < rest.length := by simp at hj; omega
          have hfk : w.spawnOk (i + 1 + k) = false := by
            rwa [show i + (k + 1) = i + 1 + k by omega] at hf
          have hr : r = none := hiff.mpr ⟨k, hk, hfk⟩
          simp [hr]
    · simp [spawnAll, eq_false_of_ne_true h0]
      exact ⟨0, by simp, by simpa using eq_false_of_ne_true h0⟩

/-! ## Structural lemmas: children -/

theorem childrenOf_fst_ge :
    ∀ (tasks : List Task) (i : Nat) (c : Child), c ∈ childrenOf tasks i → i ≤ c.1 := by
  intro tasks
  induction tasks with
  | nil => intro i c hc; simp [childrenOf] at hc
  | cons t rest ih =>
    intro i c hc
    rw [childrenOf] at hc
    rcases List.mem_cons.mp hc with h | h
    · subst h; exact Nat.le_refl i
    · exact Nat.le_of_lt (Nat.lt_of_lt_of_le (Nat.lt_succ_self i) (ih (i + 1) c h))

theorem childrenOf_pairwise :
    ∀ (tasks : List Task) (i : Nat),
      (childrenOf tasks i).Pairwise (fun a b => a.1 < b.1) := by
  intro tasks
  induction tasks with
  | nil => intro i; exact List.Pairwise.nil
  | cons t rest ih =>
    intro i
    rw [childrenOf, List.pairwise_cons]
    exact ⟨fun b hb => Nat.lt_of_lt_of_le (Nat.lt_succ_self i)
      (childrenOf_fst_ge rest (i + 1) b hb), ih (i + 1)⟩

theorem childrenOf_length :
    ∀ (tasks : List Task) (i : Nat), (childrenOf tasks i).length = tasks.length := by
  intro tasks
  induction tasks with
  | nil => intro i; rfl
  | cons t rest ih => intro i; rw [childrenOf]; simp [ih (i + 1)]

theorem childrenOf_mem :
    ∀ (tasks : List Task) (i : Nat) (c : Child), c ∈ childrenOf tasks i →
      ∃ j t, tasks[j]? = some t ∧ c = (i + j, t.stdout_suffix, t.stderr_suffix) := by
  intro tasks
  induction tasks with
  | nil => intro i c hc; simp [childrenOf] at hc
  | cons t rest ih =>
    intro i c hc
    rw [childrenOf] at hc
    rcases List.mem_cons.mp hc with h | h
    · exact ⟨0, t, by simp, by simpa using h⟩
    · rcases ih (i + 1) c h with ⟨j, u, hu, hcu⟩
      exact ⟨j + 1, u, by simpa using hu,
        by rw [hcu]; congr 1; omega⟩

theorem childrenOf_mem_of_get :
    ∀ (tasks : List Task) (i j : Nat) (t : Task), tasks[j]? = some t →
      (i + j, t.stdout_suffix, t.stderr_suffix) ∈ childrenOf tasks i := by
  intro tasks
  induction tasks with
  | nil => intro i j t ht; simp at ht
  | cons u rest ih =>
    intro i j t ht
    match j with
    | 0 =>
      simp at ht
      subst ht
      rw [childrenOf]
      exact List.mem_cons_self _ _
    | Nat.succ k =>
      simp at ht
      rw [childrenOf]
      refine List.mem_cons_of_mem _ ?_
      have := ih (i + 1) k t (by simpa using ht)
      rwa [show i + 1 + k = i + (k + 1) by omega] at this

/-! ## Structural lemmas: the collection/write phase -/

theorem writeEvents_mem {src : Src} {s : StreamKind} {ms : Option String}
    {o n : String} {e : Event} (h : e ∈ writeEvents src s ms o n) :
    ∃ suf path, ms = some suf ∧ path = pathJoin o (n ++ suf)
      ∧ e = Event.wrote src s path := by
  cases ms with
  | none => simp [writeEvents] at h
  | some suf =>
    simp [writeEvents] at h
    exact ⟨suf, pathJoin o (n ++ suf), rfl, rfl, h⟩

theorem writeEvents_all_not_kill_wait {src : Src} {s : StreamKind}
    {ms : Option String} {o n : String} {i : Nat} :
    (writeEvents src s ms o n).all
      (fun x => !(isKillAttempt i x || isWaited i x)) = true := by
  cases ms <;> simp [writeEvents, isKillAttempt, isWaited]

theorem wrote_mem_writeEvents {src src2 : Src} {s s2 : StreamKind}
    {ms : Option String} {o n path : String}
    (h : Event.wrote src2 s2 path ∈ writeEvents src s ms o n) :
    src2 = src ∧ s2 = s ∧ ∃ suf, ms = some suf
      ∧ path = pathJoin o (n ++ suf) := by
  cases ms with
  | none => simp [writeEvents] at h
  | some suf =>
    simp [writeEvents] at h
    exact ⟨h.1, h.2.1, suf, rfl, h.2.2⟩

theorem aboutChild_kinds {j : Nat} {e : Event} (h : aboutChild j e = true) :
    isInterrupted e = false ∧ isCreatedDir e = false ∧ isResolvedName e = false
      ∧ isPrimaryExited e = false ∧ isRanPrimary e = false := by
  cases e <;> first
    | exact ⟨rfl, rfl, rfl, rfl, rfl⟩
    | simp [aboutChild] at h

theorem aboutChild_ne {i j : Nat} {e : Event} (h : aboutChild j e = true)
    (hne : j ≠ i) :
    isKillAttempt i e = false ∧ isWaited i e = false ∧ isWroteOf i e = false := by
  cases e with
  | killAttempt k =>
    simp [aboutChild] at h
    subst h
    simp [isKillAttempt, isWaited, isWroteOf, hne]
  | waited k =>
    simp [aboutChild] at h
    subst h
    simp [isKillAttempt, isWaited, isWroteOf, hne]
  | wrote src s p =>
    cases src with
    | primary => simp [aboutChild] at h
    | background k =>
      simp [aboutChild] at h
      subst h
      simp [isKillAttempt, isWaited, isWroteOf, hne]
  | spawned k => simp [aboutChild] at h
  | spawnFailed k => simp [aboutChild] at h
  | sleptSettle => simp [aboutChild] at h
  | ranPrimary => simp [aboutChild] at h
  | primaryExited => simp [aboutChild] at h
  | interrupted k => simp [aboutChild] at h
  | sleptGrace => simp [aboutChild] at h
  | createdDir => simp [aboutChild] at h
  | resolvedName => simp [aboutChild] at h

theorem collectChild_events_about {w : World} {o n : String} {c : Child}
    {fs : FS} : ∀ e ∈ (collectChild w o n c fs).1, aboutChild c.1 e = true := by
  intro e he
  unfold collectChild wait_or_log at he
  cases hk : w.killResult c.1 <;> rw [hk] at he
  case otherErr =>
    simp at he
    subst he
    simp [aboutChild]
  all_goals cases hw : w.waitResult c.1 <;> rw [hw] at he
  case ok.none =>
    simp at he
    rcases he with he | he <;> (subst he; simp [aboutChild])
  case invalidInput.none =>
    simp at he
    rcases he with he | he <;> (subst he; simp [aboutChild])
  all_goals
    simp at he
    rcases he with he | he | he | he
    · subst he; simp [aboutChild]
    · subst he; simp [aboutChild]
    · rcases writeEvents_mem he with ⟨suf, path, h1, h2, hep⟩
      subst hep; simp [aboutChild]
    · rcases writeEvents_mem he with ⟨suf, path, h1, h2, hep⟩
      subst hep; simp [aboutChild]

theorem collectChild_wrote {w : World} {o n : String} {c : Child} {fs : FS}
    {k : Nat} {s : StreamKind} {path : String}
    (h : Event.wrote (Src.background k) s path ∈ (collectChild w o n c fs).1) :
    k = c.1 ∧ ∃ suf, childSuffix c s = some suf ∧ path = pathJoin o (n ++ suf) := by
  unfold collectChild wait_or_log at h
  cases hk : w.killResult c.1 <;> rw [hk] at h
  case otherErr => simp at h
  all_goals cases hw : w.waitResult c.1 <;> rw [hw] at h
  case ok.none => simp at h
  case invalidInput.none => simp at h
  all_goals
    simp at h
    rcases h with h | h
    · obtain ⟨hsrc, hs, suf, hsuf, hp⟩ := wrote_mem_writeEvents h
      subst hs
      exact ⟨by simpa using hsrc, suf, hsuf, hp⟩
    · obtain ⟨hsrc, hs, suf, hsuf, hp⟩ := wrote_mem_writeEvents h
      subst hs
      exact ⟨by simpa using hsrc, suf, hsuf, hp⟩

theorem collectChild_san {w : World} {o n : String} {c : Child} {fs : FS}
    {i : Nat} :
    strictlyAfterNone (fun e => isKillAttempt i e || isWaited i e) (isWroteOf i)
      ((collectChild w o n c fs).1) = true := by
  unfold collectChild wait_or_log
  cases hk : w.killResult c.1
  case otherErr =>
    apply strictlyAfterNone_of_no_q
    simp [isWroteOf]
  all_goals cases hw : w.waitResult c.1
  case ok.none =>
    apply strictlyAfterNone_of_no_q
    simp [isWroteOf]
  case invalidInput.none =>
    apply strictlyAfterNone_of_no_q
    simp [isWroteOf]
  all_goals
    refine strictlyAfterNone_append
      (a := [Event.killAttempt c.1, Event.waited c.1]) ?_ ?_
    · simp [isWroteOf]
    · rw [List.all_eq_true]
      intro x hx
      simp only [List.append_eq, List.nil_append, List.mem_append] at hx
      rcases hx with hx | hx <;>
        exact List.all_eq_true.mp writeEvents_all_not_kill_wait x hx

theorem collectChild_otherErr {w : World} {o n : String} {c : Child} {fs : FS}
    {i : Nat} (hko : w.killResult i = KillOutcome.otherErr) :
    ∀ e ∈ (collectChild w o n c fs).1,
      isWaited i e = false ∧ isWroteOf i e = false := by
  intro e he
  by_cases hci : c.1 = i
  · unfold collectChild at he
    rw [hci, hko] at he
    simp at he
    subst he
    simp [isWaited, isWroteOf]
  · have hab := collectChild_events_about e he
    exact ⟨(aboutChild_ne hab hci).2.1, (aboutChild_ne hab hci).2.2⟩

theorem collectChild_waited_self {w : World} {o n : String} {c : Child}
    {fs : FS} (h : w.killResult c.1 ≠ KillOutcome.otherErr) :
    Event.waited c.1 ∈ (collectChild w o n c fs).1 := by
  unfold collectChild wait_or_log
  cases hk : w.killResult c.1
  case otherErr => exact absurd hk h
  all_goals cases hw : w.waitResult c.1 <;> simp

theorem collectAndWrite_cons {w : World} {o n : String} {c : Child}
    {rest : List Child} {fs : FS} :
    collectAndWrite w o n (c :: rest) fs
      = ((collectChild w o n c fs).1
          ++ (collectAndWrite w o n rest (collectChild w o n c fs).2).1,
        (collectAndWrite w o n rest (collectChild w o n c fs).2).2) := by
  rcases hcc : collectChild w o n c fs with ⟨evs, fs1⟩
  simp [collectAndWrite, hcc]

theorem collectAndWrite_events_about {w : World} {o n : String} :
    ∀ (cs : List Child) (fs : FS) (e : Event),
      e ∈ (collectAndWrite w o n cs fs).1 → ∃ c ∈ cs, aboutChild c.1 e = true := by
  intro cs
  induction cs with
  | nil => intro fs e he; simp [collectAndWrite] at he
  | cons c rest ih =>
    intro fs e he
    rw [collectAndWrite_cons] at he
    rcases List.mem_append.mp he with h | h
    · exact ⟨c, List.mem_cons_self _ _, collectChild_events_about e h⟩
    · rcases ih _ e h with ⟨c2, hc2, hab⟩
      exact ⟨c2, List.mem_cons_of_mem _ hc2, hab⟩

theorem collectAndWrite_san {w : World} {o n : String} {i : Nat} :
    ∀ (cs : List Child) (fs : FS),
      cs.Pairwise (fun a b => a.1 < b.1) →
      strictlyAfterNone (fun e => isKillAttempt i e || isWaited i e) (isWroteOf i)
        ((collectAndWrite w o n cs fs).1) = true := by
  intro cs
  induction cs with
  | nil => intro fs _; rfl
  | cons c rest ih =>
    intro fs hpw
    rw [List.pairwise_cons] at hpw
    rw [collectAndWrite_cons]
    by_cases hci : c.1 = i
    · apply strictlyAfterNone_append_right collectChild_san
      rw [List.all_eq_true]
      intro e he
      rcases collectAndWrite_events_about rest _ e he with ⟨c2, hc2, hab⟩
      have hne : c2.1 ≠ i := by
        have := hpw.1 c2 hc2
        omega
      have h3 := aboutChild_ne hab hne
      simp [h3.1, h3.2.1]
    · apply strictlyAfterNone_append_left ?_ (ih _ hpw.2)
      rw [List.all_eq_true]
      intro e he
      have hab := collectChild_events_about e he
      simp [(aboutChild_ne hab hci).2.2]

theorem collectAndWrite_otherErr {w : World} {o n : String} {i : Nat}
    (hko : w.killResult i = KillOutcome.otherErr) :
    ∀ (cs : List Child) (fs : FS) (e : Event),
      e ∈ (collectAndWrite w o n cs fs).1 →
      isWaited i e = false ∧ isWroteOf i e = false := by
  intro cs
  induction cs with
  | nil => intro fs e he; simp [collectAndWrite] at he
  | cons c rest ih =>
    intro fs e he
    rw [collectAndWrite_cons] at he
    rcases List.mem_append.mp he with h | h
    · exact collectChild_otherErr hko e h
    · exact ih _ e h

theorem collectAndWrite_waited_mem {w : World} {o n : String} :
    ∀ (cs : List Child) (fs : FS) (c : Child), c ∈ cs →
      w.killResult c.1 ≠ KillOutcome.otherErr →
      Event.waited c.1 ∈ (collectAndWrite w o n cs fs).1 := by
  intro cs
  induction cs with
  | nil => intro fs c hc; simp at hc
  | cons c0 rest ih =>
    intro fs c hc hko
    rw [collectAndWrite_cons]
    rcases List.mem_cons.mp hc with h | h
    · subst h
      exact List.mem_append_left _ (collectChild_waited_self hko)
    · exact List.mem_append_right _ (ih _ c h hko)

theorem collectAndWrite_wrote {w : World} {o n : String} :
    ∀ (cs : List Child) (fs : FS) (k : Nat) (s : StreamKind) (path : String),
      Event.wrote (Src.background k) s path ∈ (collectAndWrite w o n cs fs).1 →
      ∃ c ∈ cs, k = c.1 ∧ ∃ suf, childSuffix c s = some suf
        ∧ path = pathJoin o (n ++ suf) := by
  intro cs
  induction cs with
  | nil => intro fs k s path h; simp [collectAndWrite] at h
  | cons c rest ih =>
    intro fs k s path h
    rw [collectAndWrite_cons] at h
    rcases List.mem_append.mp h with h | h
    · exact ⟨c, List.mem_cons_self _ _, collectChild_wrote h⟩
    · rcases ih _ k s path h with ⟨c2, hc2, hrest⟩
      exact ⟨c2, List.mem_cons_of_mem _ hc2, hrest⟩

/-! ## Run-level branch equations -/

theorem strictlyAfterNone_cons {p q : Event → Bool} {e : Event}
    {rest : List Event} (hq : q e = false)
    (h : strictlyAfterNone p q rest = true) :
    strictlyAfterNone p q (e :: rest) = true := by
  rw [strictlyAfterNone, Bool.and_eq_true]
  exact ⟨by rw [hq]; rfl, h⟩

theorem okSpawnEvents_spawn :
    ∀ (tasks : List Task) (i : Nat), ∀ e ∈ okSpawnEvents tasks i,
      isSpawnEvent e = true := by
  intro tasks
  induction tasks with
  | nil => intro i e he; simp [okSpawnEvents] at he
  | cons t rest ih =>
    intro i e he
    rw [okSpawnEvents] at he
    rcases List.mem_cons.mp he with h | h
    · subst h; rfl
    · exact ih (i + 1) e h

theorem interruptAll_mem {cs : List Child} {e : Event}
    (h : e ∈ interruptAll cs) : ∃ c ∈ cs, e = Event.interrupted c.1 := by
  rw [interruptAll, List.mem_map] at h
  rcases h with ⟨c, hc, he⟩
  exact ⟨c, hc, he.symm⟩

theorem run_spawn_fail_eq {args : Args} {tasks : List Task} {w : World}
    (h : ∃ j, j < tasks.length ∧ w.spawnOk j = false) :
    run args tasks w = ⟨(spawnAll w tasks 0).1, Outcome.exited 1, []⟩ := by
  have hnone : (spawnAll w tasks 0).2 = none :=
    spawnAll_snd_none_iff.mpr (by simpa using h)
  rcases hsp : spawnAll w tasks 0 with ⟨evs, r⟩
  rw [hsp] at hnone
  have hr : r = none := hnone
  subst hr
  simp [run, hsp]

theorem run_panic_eq {args : Args} {tasks : List Task} {w : World}
    {evs : List Event} {cs : List Child}
    (hsp : spawnAll w tasks 0 = (evs, some cs))
    (hd : durationFromSecsF64 args.sleep_after_spawn = none) :
    run args tasks w = ⟨evs, Outcome.panicked, []⟩ := by
  simp [run, hsp, hd]

theorem run_primary_fail_eq {args : Args} {tasks : List Task} {w : World}
    {evs : List Event} {cs : List Child} {d : ℚ}
    (hsp : spawnAll w tasks 0 = (evs, some cs))
    (hd : durationFromSecsF64 args.sleep_after_spawn = some d)
    (hpo : w.primaryResult = none) :
    run args tasks w
      = ⟨evs ++ [Event.sleptSettle, Event.ranPrimary], Outcome.exited 1, []⟩ := by
  simp [run, hsp, hd, hpo]

theorem run_dir_fail_eq {args : Args} {tasks : List Task} {w : World}
    {evs : List Event} {cs : List Child} {d : ℚ} {po : Output}
    (hsp : spawnAll w tasks 0 = (evs, some cs))
    (hd : durationFromSecsF64 args.sleep_after_spawn = some d)
    (hpo : w.primaryResult = some po)
    (hc : w.createDirOk = false) :
    run args tasks w
      = ⟨evs ++ [Event.sleptSettle, Event.ranPrimary, Event.primaryExited]
          ++ interruptAll cs ++ [Event.sleptGrace, Event.createdDir],
        Outcome.exited 1, []⟩ := by
  simp [run, hsp, hd, hpo, hc]

theorem run_ok_eq {args : Args} {tasks : List Task} {w : World}
    {evs : List Event} {cs : List Child} {d : ℚ} {po : Output}
    (hsp : spawnAll w tasks 0 = (evs, some cs))
    (hd : durationFromSecsF64 args.sleep_after_spawn = some d)
    (hpo : w.primaryResult = some po)
    (hc : w.createDirOk = true) :
    run args tasks w
      = ⟨evs ++ [Event.sleptSettle, Event.ranPrimary, Event.primaryExited]
          ++ interruptAll cs
          ++ [Event.sleptGrace, Event.createdDir, Event.resolvedName]
          ++ writeEvents Src.primary StreamKind.out args.stdout_suffix
              args.outdir (resolvedNameOf args w)
          ++ writeEvents Src.primary StreamKind.err args.stderr_suffix
              args.outdir (resolvedNameOf args w)
          ++ (collectAndWrite w args.outdir (resolvedNameOf args w) cs
              (primaryFs args w po)).1,
        Outcome.exited 0,
        (collectAndWrite w args.outdir (resolvedNameOf args w) cs
          (primaryFs args w po)).2⟩ := by
  simp [run, hsp, hd, hpo, hc, resolvedNameOf, primaryFs]

/-! ## Classification helpers for whole-trace arguments -/

theorem all_not_of_imp {l : List Event} {p r : Event → Bool}
    (h : l.all (fun x => !(p x)) = true)
    (himp : ∀ e, p e = false → r e = false) :
    l.all (fun x => !(r x)) = true := by
  rw [List.all_eq_true] at h ⊢
  intro e he
  have hp : p e = false := by
    have := h e he
    cases hpe : p e
    · rfl
    · rw [hpe] at this; exact absurd this (by decide)
  rw [himp e hp]
  rfl

theorem not_isWrote_isWroteOf {e : Event} {i : Nat} (h : isWrote e = false) :
    isWroteOf i e = false := by
  cases e with
  | wrote src s p => exact absurd h (by simp [isWrote])
  | _ => rfl

theorem isSpawnEvent_not_wrote {e : Event} (h : isSpawnEvent e = true) :
    isWrote e = false := by
  cases e <;> first | rfl | simp [isSpawnEvent] at h

theorem isSpawnEvent_not_interrupted {e : Event} (h : isSpawnEvent e = true) :
    isInterrupted e = false := by
  cases e <;> first | rfl | simp [isSpawnEvent] at h

theorem isSpawnEvent_not_ranPrimary {e : Event} (h : isSpawnEvent e = true) :
    isRanPrimary e = false := by
  cases e <;> first | rfl | simp [isSpawnEvent] at h

theorem okSpawnEvents_all_not_wrote {tasks : List Task} {i : Nat} :
    (okSpawnEvents tasks i).all (fun e => !(isWrote e)) = true := by
  rw [List.all_eq_true]
  intro e he
  rw [isSpawnEvent_not_wrote (okSpawnEvents_spawn tasks i e he)]
  rfl

theorem spawnAllEvents_all_not_wrote {w : World} {tasks : List Task} {i : Nat} :
    ((spawnAll w tasks i).1).all (fun e => !(isWrote e)) = true := by
  rw [List.all_eq_true]
  intro e he
  rw [isSpawnEvent_not_wrote (spawnAll_events_spawn e he)]
  rfl

theorem interruptAll_all_not_wrote {cs : List Child} :
    (interruptAll cs).all (fun e => !(isWrote e)) = true := by
  rw [List.all_eq_true]
  intro e he
  rcases interruptAll_mem he with ⟨c, hc, hec⟩
  subst hec
  rfl

theorem writeEvents_primary_all_not_wroteOf {s : StreamKind}
    {ms : Option String} {o n : String} {i : Nat} :
    (writeEvents Src.primary s ms o n).all (fun x => !(isWroteOf i x)) = true := by
  cases ms <;> simp [writeEvents, isWroteOf]

theorem isSpawnEvent_not_primaryExited {e : Event} (h : isSpawnEvent e = true) :
    isPrimaryExited e = false := by
  cases e <;> first | rfl | simp [isSpawnEvent] at h

theorem eachPrecededBy_cons {q p : Event → Bool} {e : Event}
    {rest : List Event} (hp : p e = false) (hq : q e = false)
    (h : eachPrecededBy q p rest = true) :
    eachPrecededBy q p (e :: rest) = true := by
  rw [eachPrecededBy, hp, hq]
  simpa using h

/-! ## Claim C1 -/

/-- C1 counterexample: in a fully successful concrete run with one declared
background task, the kill attempt on that task occurs strictly *after* the
output directory was created, after the shared name prefix was resolved,
and after the primary task's output file was already written — because the
`outputs` iterator in `main.rs` is lazy, kill/wait execute inside the write
loop.  This refutes the claim that for every background task the kill
attempt (step 6) and the wait-for-exit collection (step 7) are completed
before steps 8, 9 and 10. -/
theorem c1_counterexample_lazy_collection :
    Event.killAttempt 0 ∈ (run cexArgs cexTasks okWorld).trace
    ∧ ((run cexArgs cexTasks okWorld).trace).indexOf Event.createdDir
        < ((run cexArgs cexTasks okWorld).trace).indexOf (Event.killAttempt 0)
    ∧ ((run cexArgs cexTasks okWorld).trace).indexOf Event.resolvedName
        < ((run cexArgs cexTasks okWorld).trace).indexOf (Event.killAttempt 0)
    ∧ ((run cexArgs cexTasks okWorld).trace).indexOf
          (Event.wrote Src.primary StreamKind.out "./n.out")
        < ((run cexArgs cexTasks okWorld).trace).indexOf (Event.killAttempt 0) := by
  decide

/-- C1 (amended): in every run, each background task's kill attempt and
wait-for-exit collection are completed before any of *that task's own*
output files is written, and the output directory creation and the shared
name-prefix resolution precede every output file write; however the kill
and wait of a background task may come after steps 8–10 have begun (they
are interleaved with output writing, see the counterexample). -/
theorem c1_amended_ordering (args : Args) (tasks : List Task) (w : World)
    (i : Nat) :
    strictlyAfterNone (fun e => isKillAttempt i e || isWaited i e)
      (isWroteOf i) ((run args tasks w).trace) = true
    ∧ strictlyAfterNone isCreatedDir isWrote ((run args tasks w).trace) = true
    ∧ strictlyAfterNone isResolvedName isWrote ((run args tasks w).trace) = true := by
  by_cases hsf : ∃ j, j < tasks.length ∧ w.spawnOk j = false
  · rw [run_spawn_fail_eq hsf]
    refine ⟨strictlyAfterNone_of_no_q
      (all_not_of_imp spawnAllEvents_all_not_wrote
        (fun e => not_isWrote_isWroteOf)),
      strictlyAfterNone_of_no_q spawnAllEvents_all_not_wrote,
      strictlyAfterNone_of_no_q spawnAllEvents_all_not_wrote⟩
  · have hall : ∀ j, j < tasks.length → w.spawnOk j = true := by
      intro j hj
      rcases Bool.eq_false_or_eq_true (w.spawnOk j) with hb | hb
      · exact hb
      · exact absurd ⟨j, hj, hb⟩ hsf
    have hspEq : spawnAll w tasks 0
        = (okSpawnEvents tasks 0, some (childrenOf tasks 0)) :=
      spawnAll_ok (by intro j hj; simpa using hall j hj)
    cases hd : durationFromSecsF64 args.sleep_after_spawn with
    | none =>
      rw [run_panic_eq hspEq hd]
      refine ⟨strictlyAfterNone_of_no_q
        (all_not_of_imp okSpawnEvents_all_not_wrote
          (fun e => not_isWrote_isWroteOf)),
        strictlyAfterNone_of_no_q okSpawnEvents_all_not_wrote,
        strictlyAfterNone_of_no_q okSpawnEvents_all_not_wrote⟩
    | some d =>
      cases hpo : w.primaryResult with
      | none =>
        rw [run_primary_fail_eq hspEq hd hpo]
        have hnw : (okSpawnEvents tasks 0
            ++ [Event.sleptSettle, Event.ranPrimary]).all
            (fun e => !(isWrote e)) = true := by
          rw [List.all_append, Bool.and_eq_true]
          exact ⟨okSpawnEvents_all_not_wrote, by decide⟩
        exact ⟨strictlyAfterNone_of_no_q
          (all_not_of_imp hnw (fun e => not_isWrote_isWroteOf)),
          strictlyAfterNone_of_no_q hnw,
          strictlyAfterNone_of_no_q hnw⟩
      | some po =>
        cases hcb : w.createDirOk with
        | false =>
          rw [run_dir_fail_eq hspEq hd hpo hcb]
          have hnw : ((okSpawnEvents tasks 0
              ++ [Event.sleptSettle, Event.ranPrimary, Event.primaryExited]
              ++ interruptAll (childrenOf tasks 0)
              ++ [Event.sleptGrace, Event.createdDir])).all
              (fun e => !(isWrote e)) = true := by
            rw [List.all_append, Bool.and_eq_true]
            refine ⟨?_, by decide⟩
            rw [List.all_append, Bool.and_eq_true]
            refine ⟨?_, interruptAll_all_not_wrote⟩
            rw [List.all_append, Bool.and_eq_true]
            exact ⟨okSpawnEvents_all_not_wrote, by decide⟩
          exact ⟨strictlyAfterNone_of_no_q
            (all_not_of_imp hnw (fun e => not_isWrote_isWroteOf)),
            strictlyAfterNone_of_no_q hnw,
            strictlyAfterNone_of_no_q hnw⟩
        | true =>
          rw [run_ok_eq hspEq hd hpo hcb]
          simp only [List.append_assoc, List.cons_append, List.nil_append]
          have hcollect1 : strictlyAfterNone
              (fun e => isKillAttempt i e || isWaited i e) (isWroteOf i)
              ((collectAndWrite w args.outdir (resolvedNameOf args w)
                (childrenOf tasks 0) (primaryFs args w po)).1) = true :=
            collectAndWrite_san _ _ (childrenOf_pairwise tasks 0)
          refine ⟨?_, ?_, ?_⟩
          · apply strictlyAfterNone_append_left
              (all_not_of_imp okSpawnEvents_all_not_wrote
                (fun e => not_isWrote_isWroteOf))
            refine strictlyAfterNone_cons rfl (strictlyAfterNone_cons rfl
              (strictlyAfterNone_cons rfl ?_))
            apply strictlyAfterNone_append_left
              (all_not_of_imp interruptAll_all_not_wrote
                (fun e => not_isWrote_isWroteOf))
            refine strictlyAfterNone_cons rfl (strictlyAfterNone_cons rfl
              (strictlyAfterNone_cons rfl ?_))
            apply strictlyAfterNone_append_left
              writeEvents_primary_all_not_wroteOf
            apply strictlyAfterNone_append_left
              writeEvents_primary_all_not_wroteOf
            exact hcollect1
          · apply strictlyAfterNone_append_left okSpawnEvents_all_not_wrote
            refine strictlyAfterNone_cons rfl (strictlyAfterNone_cons rfl
              (strictlyAfterNone_cons rfl ?_))
            apply strictlyAfterNone_append_left interruptAll_all_not_wrote
            refine strictlyAfterNone_cons rfl (strictlyAfterNone_cons rfl
              (strictlyAfterNone_cons rfl ?_))
            apply strictlyAfterNone_of_no_p
            rw [List.all_eq_true]
            intro e he
            simp only [List.mem_append] at he
            rcases he with he | he | he
            · rcases writeEvents_mem he with ⟨suf, path, _, _, hep⟩
              subst hep; rfl
            · rcases writeEvents_mem he with ⟨suf, path, _, _, hep⟩
              subst hep; rfl
            · rcases collectAndWrite_events_about _ _ e he with ⟨c, _, hab⟩
              rw [(aboutChild_kinds hab).2.1]
              rfl
          · apply strictlyAfterNone_append_left okSpawnEvents_all_not_wrote
            refine strictlyAfterNone_cons rfl (strictlyAfterNone_cons rfl
              (strictlyAfterNone_cons rfl ?_))
            apply strictlyAfterNone_append_left interruptAll_all_not_wrote
            refine strictlyAfterNone_cons rfl (strictlyAfterNone_cons rfl
              (strictlyAfterNone_cons rfl ?_))
            apply strictlyAfterNone_of_no_p
            rw [List.all_eq_true]
            intro e he
            simp only [List.mem_append] at he
            rcases he with he | he | he
            · rcases writeEvents_mem he with ⟨suf, path, _, _, hep⟩
              subst hep; rfl
            · rcases writeEvents_mem he with ⟨suf, path, _, _, hep⟩
              subst hep; rfl
            · rcases collectAndWrite_events_about _ _ e he with ⟨c, _, hab⟩
              rw [(aboutChild_kinds hab).2.2.1]
              rfl

/-! ## Claim C2 -/

/-- C2: no interrupt signal is sent to any background task until the
primary task has fully exited, i.e. in every run trace every interrupt
event is strictly preceded by the event marking that the primary command's
blocking execution returned its captured output and exit status. -/
theorem c2_no_interrupt_before_primary_exit (args : Args) (tasks : List Task)
    (w : World) :
    eachPrecededBy isPrimaryExited isInterrupted
      ((run args tasks w).trace) = true := by
  have hspawn_no_int : ∀ (l : List Event),
      (∀ e ∈ l, isSpawnEvent e = true) →
      l.all (fun e => !(isInterrupted e)) = true := by
    intro l hl
    rw [List.all_eq_true]
    intro e he
    rw [isSpawnEvent_not_interrupted (hl e he)]
    rfl
  by_cases hsf : ∃ j, j < tasks.length ∧ w.spawnOk j = false
  · rw [run_spawn_fail_eq hsf]
    exact eachPrecededBy_of_no_p
      (hspawn_no_int _ (fun e he => spawnAll_events_spawn e he))
  · have hall : ∀ j, j < tasks.length → w.spawnOk j = true := by
      intro j hj
      rcases Bool.eq_false_or_eq_true (w.spawnOk j) with hb | hb
      · exact hb
      · exact absurd ⟨j, hj, hb⟩ hsf
    have hspEq : spawnAll w tasks 0
        = (okSpawnEvents tasks 0, some (childrenOf tasks 0)) :=
      spawnAll_ok (by intro j hj; simpa using hall j hj)
    have hok_pq : (okSpawnEvents tasks 0).all
        (fun e => !(isInterrupted e) && !(isPrimaryExited e)) = true := by
      rw [List.all_eq_true]
      intro e he
      have h1 := okSpawnEvents_spawn tasks 0 e he
      rw [isSpawnEvent_not_interrupted h1, isSpawnEvent_not_primaryExited h1]
      rfl
    cases hd : durationFromSecsF64 args.sleep_after_spawn with
    | none =>
      rw [run_panic_eq hspEq hd]
      exact eachPrecededBy_of_no_p
        (hspawn_no_int _ (fun e he => okSpawnEvents_spawn tasks 0 e he))
    | some d =>
      cases hpo : w.primaryResult with
      | none =>
        rw [run_primary_fail_eq hspEq hd hpo]
        apply eachPrecededBy_of_no_p
        rw [List.all_append, Bool.and_eq_true]
        exact ⟨hspawn_no_int _ (fun e he => okSpawnEvents_spawn tasks 0 e he),
          by decide⟩
      | some po =>
        cases hcb : w.createDirOk with
        | false =>
          rw [run_dir_fail_eq hspEq hd hpo hcb]
          simp only [List.append_assoc, List.cons_append, List.nil_append]
          apply eachPrecededBy_append_left hok_pq
          exact eachPrecededBy_cons rfl rfl (eachPrecededBy_cons rfl rfl
            (eachPrecededBy_cons_q rfl rfl))
        | true =>
          rw [run_ok_eq hspEq hd hpo hcb]
          simp only [List.append_assoc, List.cons_append, List.nil_append]
          apply eachPrecededBy_append_left hok_pq
          exact eachPrecededBy_cons rfl rfl (eachPrecededBy_cons rfl rfl
            (eachPrecededBy_cons_q rfl rfl))

/-! ## Claim C3 -/

/-- C3: if spawning any background task fails, the entire run aborts before
the primary command is ever started (no run-primary event appears in the
trace), the process exits non-zero, and zero output files are written. -/
theorem c3_spawn_failure_aborts (args : Args) (tasks : List Task) (w : World)
    (h : ∃ j, j < tasks.length ∧ w.spawnOk j = false) :
    (run args tasks w).outcome = Outcome.exited 1
    ∧ (run args tasks w).fs = []
    ∧ Event.ranPrimary ∉ (run args tasks w).trace := by
  rw [run_spawn_fail_eq h]
  refine ⟨rfl, rfl, ?_⟩
  intro hmem
  have hse := @spawnAll_events_spawn w tasks 0 _ hmem
  simp [isSpawnEvent] at hse

/-- Witness for C3: with the single declared task failing to spawn, the run
exits 1, writes nothing, and never starts the primary command. -/
theorem c3_witness :
    (∃ j, j < cexTasks.length ∧ failSpawnWorld.spawnOk j = false)
    ∧ ((run cexArgs cexTasks failSpawnWorld).outcome = Outcome.exited 1
      ∧ (run cexArgs cexTasks failSpawnWorld).fs = []
      ∧ Event.ranPrimary ∉ (run cexArgs cexTasks failSpawnWorld).trace) :=
  ⟨⟨0, by decide, rfl⟩,
    c3_spawn_failure_aborts cexArgs cexTasks failSpawnWorld ⟨0, by decide, rfl⟩⟩

/-! ## Claim C4 -/

/-- C4: a background task whose forced-kill attempt fails with an error
other than the "already exited" case is excluded from collection: it is
never waited on and none of its streams ever appears among the written
output files, while the run as a whole continues and exits zero. -/
theorem c4_kill_failure_excludes_task (args : Args) (tasks : List Task)
    (w : World) (i : Nat) {d : ℚ} {po : Output}
    (hall : ∀ j, j < tasks.length → w.spawnOk j = true)
    (hd : durationFromSecsF64 args.sleep_after_spawn = some d)
    (hpo : w.primaryResult = some po)
    (hc : w.createDirOk = true)
    (hko : w.killResult i = KillOutcome.otherErr) :
    (∀ (s : StreamKind) (path : String),
        Event.wrote (Src.background i) s path ∉ (run args tasks w).trace)
    ∧ Event.waited i ∉ (run args tasks w).trace
    ∧ (run args tasks w).outcome = Outcome.exited 0 := by
  have hspEq : spawnAll w tasks 0
      = (okSpawnEvents tasks 0, some (childrenOf tasks 0)) :=
    spawnAll_ok (by intro j hj; simpa using hall j hj)
  rw [run_ok_eq hspEq hd hpo hc]
  simp only [List.append_assoc, List.cons_append, List.nil_append]
  refine ⟨?_, ?_, trivial⟩
  · intro s path hmem
    simp only [List.mem_append, List.mem_cons, reduceCtorEq, false_or,
      or_false] at hmem
    rcases hmem with hmem | hmem | hmem | hmem | hmem
    · have hse := okSpawnEvents_spawn tasks 0 _ hmem
      simp [isSpawnEvent] at hse
    · rcases interruptAll_mem hmem with ⟨c, _, hec⟩
      simp at hec
    · rcases wrote_mem_writeEvents hmem with ⟨hsrc, _⟩
      simp at hsrc
    · rcases wrote_mem_writeEvents hmem with ⟨hsrc, _⟩
      simp at hsrc
    · have hx := (collectAndWrite_otherErr hko _ _ _ hmem).2
      simp [isWroteOf] at hx
  · intro hmem
    simp only [List.mem_append, List.mem_cons, reduceCtorEq, false_or,
      or_false] at hmem
    rcases hmem with hmem | hmem | hmem | hmem | hmem
    · have hse := okSpawnEvents_spawn tasks 0 _ hmem
      simp [isSpawnEvent] at hse
    · rcases interruptAll_mem hmem with ⟨c, _, hec⟩
      simp at hec
    · rcases writeEvents_mem hmem with ⟨suf, p2, _, _, hep⟩
      simp at hep
    · rcases writeEvents_mem hmem with ⟨suf, p2, _, _, hep⟩
      simp at hep
    · have hx := (collectAndWrite_otherErr hko _ _ _ hmem).1
      simp [isWaited] at hx

/-- Witness for C4: one declared task, its kill failing with a non-benign
error; the task is never waited on, nothing of it is written, and the run
exits zero. -/
theorem c4_witness :
    (∀ j, j < cexTasks.length → otherErrWorld.spawnOk j = true)
    ∧ durationFromSecsF64 cexArgs.sleep_after_spawn = some 1
    ∧ otherErrWorld.primaryResult = some ⟨[104, 105], [], 0⟩
    ∧ otherErrWorld.createDirOk = true
    ∧ otherErrWorld.killResult 0 = KillOutcome.otherErr
    ∧ ((∀ (s : StreamKind) (path : String),
          Event.wrote (Src.background 0) s path
            ∉ (run cexArgs cexTasks otherErrWorld).trace)
      ∧ Event.waited 0 ∉ (run cexArgs cexTasks otherErrWorld).trace
      ∧ (run cexArgs cexTasks otherErrWorld).outcome = Outcome.exited 0) :=
  ⟨fun j hj => rfl, by decide, rfl, rfl, rfl,
    @c4_kill_failure_excludes_task cexArgs cexTasks otherErrWorld 0 1
      ⟨[104, 105], [], 0⟩ (fun j hj => rfl) (by decide) rfl rfl rfl⟩

/-! ## Claim C5 -/

/-- C5: a background task whose process already exited before the kill step
(the kill fails with the "already exited" error) is treated as success: the
task still proceeds to wait-for-exit collection, and the run exits zero. -/
theorem c5_already_exited_still_collected (args : Args) (tasks : List Task)
    (w : World) (i : Nat) {d : ℚ} {po : Output}
    (hall : ∀ j, j < tasks.length → w.spawnOk j = true)
    (hd : durationFromSecsF64 args.sleep_after_spawn = some d)
    (hpo : w.primaryResult = some po)
    (hc : w.createDirOk = true)
    (hi : i < tasks.length)
    (hko : w.killResult i = KillOutcome.invalidInput) :
    Event.waited i ∈ (run args tasks w).trace
    ∧ (run args tasks w).outcome = Outcome.exited 0 := by
  have hspEq : spawnAll w tasks 0
      = (okSpawnEvents tasks 0, some (childrenOf tasks 0)) :=
    spawnAll_ok (by intro j hj; simpa using hall j hj)
  rw [run_ok_eq hspEq hd hpo hc]
  refine ⟨?_, rfl⟩
  obtain ⟨t, ht⟩ : ∃ t, tasks[i]? = some t := by
    rcases hg : tasks[i]? with _ | t
    · rw [List.getElem?_eq_none_iff] at hg
      omega
    · exact ⟨t, rfl⟩
  have hmem := childrenOf_mem_of_get tasks 0 i t ht
  rw [Nat.zero_add] at hmem
  have hw := collectAndWrite_waited_mem (w := w) (o := args.outdir)
    (n := resolvedNameOf args w) _ (primaryFs args w po) _ hmem
    (by rw [show ((i, t.stdout_suffix, t.stderr_suffix) : Child).1 = i from rfl,
      hko]; simp)
  exact List.mem_append_right _ hw

/-- Witness for C5: one declared task whose kill reports "already exited";
its wait-for-exit collection still happens and the run exits zero. -/
theorem c5_witness :
    (∀ j, j < cexTasks.length → alreadyExitedWorld.spawnOk j = true)
    ∧ durationFromSecsF64 cexArgs.sleep_after_spawn = some 1
    ∧ alreadyExitedWorld.primaryResult = some ⟨[104, 105], [], 0⟩
    ∧ alreadyExitedWorld.createDirOk = true
    ∧ 0 < cexTasks.length
    ∧ alreadyExitedWorld.killResult 0 = KillOutcome.invalidInput
    ∧ (Event.waited 0 ∈ (run cexArgs cexTasks alreadyExitedWorld).trace
      ∧ (run cexArgs cexTasks alreadyExitedWorld).outcome = Outcome.exited 0) :=
  ⟨fun j hj => rfl, by decide, rfl, rfl, by decide, rfl,
    @c5_already_exited_still_collected cexArgs cexTasks alreadyExitedWorld 0 1
      ⟨[104, 105], [], 0⟩ (fun j hj => rfl) (by decide) rfl rfl (by decide) rfl⟩

/-! ## Claim C6 -/

theorem anySpawnFails_iff {tasks : List Task} {w : World} :
    anySpawnFails tasks w = true
      ↔ ∃ j, j < tasks.length ∧ w.spawnOk j = false := by
  rw [anySpawnFails, List.any_eq_true]
  constructor
  · rintro ⟨j, hj, hb⟩
    refine ⟨j, List.mem_range.mp hj, ?_⟩
    cases hx : w.spawnOk j
    · rfl
    · rw [hx] at hb; exact absurd hb (by decide)
  · rintro ⟨j, hj, hb⟩
    exact ⟨j, List.mem_range.mpr hj, by rw [hb]; rfl⟩

/-- C6 counterexample: with a NaN settling delay (which clap's f64 parser
accepts) and a world where every spawn succeeds, the primary task runs
fine, and the output directory can be created, *no* fatal condition of the
claim holds — yet the process does not exit zero: it panics in
`Duration::from_secs_f64`, so it terminates with the panic exit code rather
than zero or the reported-error exit. -/
theorem c6_counterexample_panic :
    fatalCondition cexTasks okWorld = false
    ∧ (run nanArgs cexTasks okWorld).outcome ≠ Outcome.exited 0
    ∧ (run nanArgs cexTasks okWorld).outcome = Outcome.panicked := by
  decide

/-- C6 (amended): provided the settling delay is one that
`Duration::from_secs_f64` accepts (otherwise the process panics, see C10),
the process exits non-zero exactly on a fatal condition — some spawn
failing, the primary task failing to execute, or the output directory
being impossible to create — and exits zero otherwise, even when
individual background-task kills, waits, or file writes failed. -/
theorem c6_amended_exit_codes (args : Args) (tasks : List Task) (w : World)
    {d : ℚ} (hd : durationFromSecsF64 args.sleep_after_spawn = some d) :
    ((run args tasks w).outcome = Outcome.exited 0
      ↔ fatalCondition tasks w = false)
    ∧ ((run args tasks w).outcome = Outcome.exited 1
      ↔ fatalCondition tasks w = true) := by
  by_cases hsf : ∃ j, j < tasks.length ∧ w.spawnOk j = false
  · have hf : fatalCondition tasks w = true := by
      rw [fatalCondition, anySpawnFails_iff.mpr hsf]
      rfl
    rw [run_spawn_fail_eq hsf, hf]
    constructor <;> simp
  · have hall : ∀ j, j < tasks.length → w.spawnOk j = true := by
      intro j hj
      rcases Bool.eq_false_or_eq_true (w.spawnOk j) with hb | hb
      · exact hb
      · exact absurd ⟨j, hj, hb⟩ hsf
    have hspEq : spawnAll w tasks 0
        = (okSpawnEvents tasks 0, some (childrenOf tasks 0)) :=
      spawnAll_ok (by intro j hj; simpa using hall j hj)
    have hasf : anySpawnFails tasks w = false := by
      cases hx : anySpawnFails tasks w
      · rfl
      · exact absurd (anySpawnFails_iff.mp hx) hsf
    cases hpo : w.primaryResult with
    | none =>
      have hf : fatalCondition tasks w = true := by
        rw [fatalCondition, hasf, hpo]
        rfl
      rw [run_primary_fail_eq hspEq hd hpo, hf]
      constructor <;> simp
    | some po =>
      cases hcb : w.createDirOk with
      | false =>
        have hf : fatalCondition tasks w = true := by
          rw [fatalCondition, hasf, hpo, hcb]
          rfl
        rw [run_dir_fail_eq hspEq hd hpo hcb, hf]
        constructor <;> simp
      | true =>
        have hf : fatalCondition tasks w = false := by
          rw [fatalCondition, hasf, hpo, hcb]
          rfl
        rw [run_ok_eq hspEq hd hpo hcb, hf]
        constructor <;> simp

/-- Witness for the amended C6 at a concrete valid settling delay: in the
all-success world the run exits zero and the fatal-condition predicate is
false. -/
theorem c6_witness :
    durationFromSecsF64 cexArgs.sleep_after_spawn = some 1
    ∧ (((run cexArgs cexTasks okWorld).outcome = Outcome.exited 0
        ↔ fatalCondition cexTasks okWorld = false)
      ∧ ((run cexArgs cexTasks okWorld).outcome = Outcome.exited 1
        ↔ fatalCondition cexTasks okWorld = true)) :=
  ⟨by decide, @c6_amended_exit_codes cexArgs cexTasks okWorld 1 (by decide)⟩

/-! ## Claim C7 -/

theorem childSuffix_suffixFor {j : Nat} {t : Task} {s : StreamKind} :
    childSuffix (j, t.stdout_suffix, t.stderr_suffix) s = t.suffixFor s := by
  cases s <;> rfl

/-- Every write event of a run is justified by a configured suffix: a
primary write requires the corresponding primary suffix to be present, and
a background write requires the corresponding suffix of the declared task
with that index; in both cases the path is the output directory joined with
the resolved name prefix concatenated with the suffix. -/
theorem run_wrote_inv {args : Args} {tasks : List Task} {w : World}
    {src : Src} {s : StreamKind} {path : String}
    (h : Event.wrote src s path ∈ (run args tasks w).trace) :
    (src = Src.primary ∧ ∃ suf, args.suffixFor s = some suf
        ∧ path = pathJoin args.outdir (resolvedNameOf args w ++ suf))
    ∨ (∃ i t, src = Src.background i ∧ tasks[i]? = some t
        ∧ ∃ suf, t.suffixFor s = some suf
        ∧ path = pathJoin args.outdir (resolvedNameOf args w ++ suf)) := by
  have habort : ∀ (l : List Event), l.all (fun e => !(isWrote e)) = true →
      Event.wrote src s path ∈ l → False := by
    intro l hl hm
    have := List.all_eq_true.mp hl _ hm
    simp [isWrote] at this
  by_cases hsf : ∃ j, j < tasks.length ∧ w.spawnOk j = false
  · rw [run_spawn_fail_eq hsf] at h
    exact absurd h (fun hm => habort _ spawnAllEvents_all_not_wrote hm)
  · have hall : ∀ j, j < tasks.length → w.spawnOk j = true := by
      intro j hj
      rcases Bool.eq_false_or_eq_true (w.spawnOk j) with hb | hb
      · exact hb
      · exact absurd ⟨j, hj, hb⟩ hsf
    have hspEq : spawnAll w tasks 0
        = (okSpawnEvents tasks 0, some (childrenOf tasks 0)) :=
      spawnAll_ok (by intro j hj; simpa using hall j hj)
    cases hd : durationFromSecsF64 args.sleep_after_spawn with
    | none =>
      rw [run_panic_eq hspEq hd] at h
      exact absurd h (fun hm => habort _ okSpawnEvents_all_not_wrote hm)
    | some d =>
      cases hpo : w.primaryResult with
      | none =>
        rw [run_primary_fail_eq hspEq hd hpo] at h
        refine absurd h (fun hm => habort _ ?_ hm)
        rw [List.all_append, Bool.and_eq_true]
        exact ⟨okSpawnEvents_all_not_wrote, by decide⟩
      | some po =>
        cases hcb : w.createDirOk with
        | false =>
          rw [run_dir_fail_eq hspEq hd hpo hcb] at h
          refine absurd h (fun hm => habort _ ?_ hm)
          rw [List.all_append, Bool.and_eq_true]
          refine ⟨?_, by decide⟩
          rw [List.all_append, Bool.and_eq_true]
          refine ⟨?_, interruptAll_all_not_wrote⟩
          rw [List.all_append, Bool.and_eq_true]
          exact ⟨okSpawnEvents_all_not_wrote, by decide⟩
        | true =>
          rw [run_ok_eq hspEq hd hpo hcb] at h
          simp only [List.append_assoc, List.cons_append,
            List.nil_append] at h
          simp only [List.mem_append, List.mem_cons, reduceCtorEq, false_or,
            or_false] at h
          rcases h with h | h | h | h | h
          · have hse := okSpawnEvents_spawn tasks 0 _ h
            simp [isSpawnEvent] at hse
          · rcases interruptAll_mem h with ⟨c, _, hec⟩
            simp at hec
          · obtain ⟨hsrc, hs, suf, hsuf, hp⟩ := wrote_mem_writeEvents h
            subst hs
            exact Or.inl ⟨hsrc, suf, by
              rw [Args.suffixFor]; exact hsuf, hp⟩
          · obtain ⟨hsrc, hs, suf, hsuf, hp⟩ := wrote_mem_writeEvents h
            subst hs
            exact Or.inl ⟨hsrc, suf, by
              rw [Args.suffixFor]; exact hsuf, hp⟩
          · cases src with
            | primary =>
              rcases collectAndWrite_events_about _ _ _ h with ⟨c, _, hab⟩
              simp [aboutChild] at hab
            | background k =>
              rcases collectAndWrite_wrote _ _ _ _ _ h with
                ⟨c, hc, hk, suf, hsuf, hp⟩
              rcases childrenOf_mem tasks 0 c hc with ⟨j, t, ht, hcj⟩
              refine Or.inr ⟨k, t, rfl, ?_, suf, ?_, hp⟩
              · rw [show k = j by rw [hk, hcj]; simp]
                exact ht
              · rw [hcj] at hsuf
                rwa [childSuffix_suffixFor] at hsuf

/-- C7: for every task (primary or background) and each of its streams, no
file is ever written for a stream with no configured suffix, even if the
process produced output; and when a suffix is present and the filesystem
accepts the write, the captured bytes end up in the file named by the
shared prefix concatenated with the suffix inside the output directory. -/
theorem c7_suffix_controls_writes :
    (∀ (args : Args) (tasks : List Task) (w : World) (s : StreamKind)
        (path : String), args.suffixFor s = none →
        Event.wrote Src.primary s path ∉ (run args tasks w).trace)
    ∧ (∀ (args : Args) (tasks : List Task) (w : World) (i : Nat) (t : Task)
        (s : StreamKind) (path : String),
        tasks[i]? = some t → t.suffixFor s = none →
        Event.wrote (Src.background i) s path ∉ (run args tasks w).trace)
    ∧ (∀ (outdir name suffix : String) (bytes : List Nat)
        (writeOk : String → Bool) (fs : FS),
        writeOk (pathJoin outdir (name ++ suffix)) = true →
        fsLookup (write_or_log (some suffix) outdir name bytes writeOk fs)
          (pathJoin outdir (name ++ suffix)) = some bytes) := by
  refine ⟨?_, ?_, ?_⟩
  · intro args tasks w s path hnone hmem
    rcases run_wrote_inv hmem with ⟨_, suf, hsuf, _⟩ | ⟨i, t, hsrc, _⟩
    · rw [hnone] at hsuf
      exact absurd hsuf (by simp)
    · exact absurd hsrc (by simp)
  · intro args tasks w i t s path ht hnone hmem
    rcases run_wrote_inv hmem with ⟨hsrc, _⟩ | ⟨i2, t2, hsrc, ht2, suf, hsuf, _⟩
    · exact absurd hsrc (by simp)
    · have hi : i2 = i := by
        have := hsrc
        simp at this
        exact this.symm
      subst hi
      rw [ht] at ht2
      have ht3 : t2 = t := by
        have := ht2
        simp at this
        exact this.symm
      subst ht3
      rw [hnone] at hsuf
      exact absurd hsuf (by simp)
  · intro outdir name suffix bytes writeOk fs hwk
    rw [write_or_log]
    simp only [hwk, if_true]
    rw [fsLookup, fsWrite]
    simp [List.find?]

/-- Witness for C7: the primary task's stderr has no suffix configured in
`cexArgs`, so no stderr file of the primary task is ever written; and a
concrete `write_or_log` with a present suffix stores the bytes at
`outdir/{name}{suffix}`. -/
theorem c7_witness :
    (cexArgs.suffixFor StreamKind.err = none
      ∧ Event.wrote Src.primary StreamKind.err "./n.err"
          ∉ (run cexArgs cexTasks okWorld).trace)
    ∧ ((fun _ => true) (pathJoin "." ("n" ++ ".out")) = true
      ∧ fsLookup (write_or_log (some ".out") "." "n" [104] (fun _ => true) [])
          (pathJoin "." ("n" ++ ".out")) = some [104]) :=
  ⟨⟨rfl, c7_suffix_controls_writes.1 cexArgs cexTasks okWorld StreamKind.err
      "./n.err" rfl⟩,
    ⟨rfl, c7_suffix_controls_writes.2.2 "." "n" ".out" [104] (fun _ => true)
      [] rfl⟩⟩

/-! ## Claim C8 -/

/-- C8: for every non-empty task declaration, if every background spawn
succeeds (and the run reaches the interrupt phase, i.e. the settling delay
is valid and the primary task executed), the number of background task
records entering the interrupt phase — counted as interrupt events in the
trace — equals the number of declared tasks. -/
theorem c8_interrupt_count (args : Args) (tasks : List Task) (w : World)
    {d : ℚ} {po : Output}
    (_hne : tasks ≠ [])
    (hall : ∀ j, j < tasks.length → w.spawnOk j = true)
    (hd : durationFromSecsF64 args.sleep_after_spawn = some d)
    (hpo : w.primaryResult = some po) :
    ((run args tasks w).trace).countP isInterrupted = tasks.length := by
  have hspEq : spawnAll w tasks 0
      = (okSpawnEvents tasks 0, some (childrenOf tasks 0)) :=
    spawnAll_ok (by intro j hj; simpa using hall j hj)
  have hzero : ∀ (l : List Event), (∀ e ∈ l, isInterrupted e = false) →
      l.countP isInterrupted = 0 := by
    intro l hl
    rw [List.countP_eq_zero]
    intro e he
    rw [hl e he]
    exact Bool.false_ne_true
  have hspawn0 : (okSpawnEvents tasks 0).countP isInterrupted = 0 :=
    hzero _ (fun e he => isSpawnEvent_not_interrupted
      (okSpawnEvents_spawn tasks 0 e he))
  have hint : (interruptAll (childrenOf tasks 0)).countP isInterrupted
      = tasks.length := by
    rw [List.countP_eq_length.mpr, interruptAll, List.length_map,
      childrenOf_length]
    intro e he
    rcases interruptAll_mem he with ⟨c, _, hec⟩
    subst hec
    rfl
  cases hcb : w.createDirOk with
  | false =>
    rw [run_dir_fail_eq hspEq hd hpo hcb]
    simp only [List.countP_append, hspawn0, hint]
    simp [List.countP_cons, List.countP_nil, isInterrupted]
  | true =>
    rw [run_ok_eq hspEq hd hpo hcb]
    have hw1 : (writeEvents Src.primary StreamKind.out args.stdout_suffix
        args.outdir (resolvedNameOf args w)).countP isInterrupted = 0 := by
      refine hzero _ ?_
      intro e he
      rcases writeEvents_mem he with ⟨suf, p2, _, _, hep⟩
      subst hep
      rfl
    have hw2 : (writeEvents Src.primary StreamKind.err args.stderr_suffix
        args.outdir (resolvedNameOf args w)).countP isInterrupted = 0 := by
      refine hzero _ ?_
      intro e he
      rcases writeEvents_mem he with ⟨suf, p2, _, _, hep⟩
      subst hep
      rfl
    have hcw : ((collectAndWrite w args.outdir (resolvedNameOf args w)
        (childrenOf tasks 0) (primaryFs args w po)).1).countP isInterrupted
        = 0 := by
      refine hzero _ ?_
      intro e he
      rcases collectAndWrite_events_about _ _ _ he with ⟨c, _, hab⟩
      exact (aboutChild_kinds hab).1
    simp only [List.countP_append, hspawn0, hint, hw1, hw2, hcw]
    simp [List.countP_cons, List.countP_nil, isInterrupted]

/-- Witness for C8: one declared task, everything succeeding: exactly one
interrupt event appears in the trace. -/
theorem c8_witness :
    cexTasks ≠ []
    ∧ (∀ j, j < cexTasks.length → okWorld.spawnOk j = true)
    ∧ durationFromSecsF64 cexArgs.sleep_after_spawn = some 1
    ∧ okWorld.primaryResult = some ⟨[104, 105], [], 0⟩
    ∧ ((run cexArgs cexTasks okWorld).trace).countP isInterrupted
        = cexTasks.length :=
  ⟨by decide, fun j hj => rfl, by decide, rfl,
    @c8_interrupt_count cexArgs cexTasks okWorld 1 ⟨[104, 105], [], 0⟩
      (by decide) (fun j hj => rfl) (by decide) rfl⟩

/-! ## Claim C9 -/

/-- C9: the write operation is idempotent — for any output directory,
prefix, suffix and byte buffer, performing the same write twice into an
empty output directory leaves exactly the same filesystem contents (hence
the same final content of the file at that path) as performing it once. -/
theorem c9_write_idempotent (outdir name suffix : String) (bytes : List Nat)
    (writeOk : String → Bool) :
    write_or_log (some suffix) outdir name bytes writeOk
        (write_or_log (some suffix) outdir name bytes writeOk [])
      = write_or_log (some suffix) outdir name bytes writeOk [] := by
  cases hw : writeOk (pathJoin outdir (name ++ suffix)) with
  | false => simp [write_or_log, hw]
  | true => simp [write_or_log, hw, fsWrite]

/-! ## Claim C10 -/

/-- C10: any settling-delay value that is NaN, infinite, negative, or too
large for a `Duration` is accepted by clap's `f64` argument parser (every
`F64` value is a parsed CLI value), yet once the background spawns have
succeeded the orchestrator panics in `Duration::from_secs_f64` when
converting it — the run ends in a panic, not in a descriptive error
exit. -/
theorem c10_invalid_sleep_panics (args : Args) (tasks : List Task)
    (w : World)
    (hbad : invalidSleepValue args.sleep_after_spawn)
    (hall : ∀ j, j < tasks.length → w.spawnOk j = true) :
    (run args tasks w).outcome = Outcome.panicked := by
  have hd : durationFromSecsF64 args.sleep_after_spawn = none := by
    cases hv : args.sleep_after_spawn with
    | nan => rfl
    | inf => rfl
    | negInf => rfl
    | finite q =>
      rw [hv] at hbad
      simp only [invalidSleepValue] at hbad
      rw [durationFromSecsF64, if_neg]
      rintro ⟨h1, h2⟩
      rcases hbad with hb | hb
      · exact absurd h1 (not_le.mpr hb)
      · exact absurd h2 (not_lt.mpr hb)
  have hspEq : spawnAll w tasks 0
      = (okSpawnEvents tasks 0, some (childrenOf tasks 0)) :=
    spawnAll_ok (by intro j hj; simpa using hall j hj)
  rw [run_panic_eq hspEq hd]

/-- Witness for C10: a negative settling delay passes parsing but makes the
run panic. -/
theorem c10_witness :
    invalidSleepValue negArgs.sleep_after_spawn
    ∧ (∀ j, j < cexTasks.length → okWorld.spawnOk j = true)
    ∧ (run negArgs cexTasks okWorld).outcome = Outcome.panicked :=
  ⟨Or.inl (by norm_num), fun j hj => rfl,
    c10_invalid_sleep_panics negArgs cexTasks okWorld (Or.inl (by norm_num))
      (fun j hj => rfl)⟩

end Meanwhile
